import Mathlib

/-!
Verification of the HipChat notification XML generator
(`jenkins_jobs/modules/hipchat_notif.py`, class `HipChat`, method `gen_xml`).

The Python code receives a job `data` mapping, reads `data.get('hipchat')`
(an options mapping), and mutates an ElementTree document in place:
it finds or creates a `properties` section and a `publishers` section under
the document root, appends one HipChat property block to the former and one
HipChat publisher block to the latter, filling fields from the options.

Shallow embedding choices:
  * Option values are booleans or strings (the spec data model:
    "values of type boolean, string, or absent").  Mappings are association
    lists looked up first-match, standing for Python dicts.
  * `str(...)` / `.lower()` / truthiness / `x or y` are embedded by
    `pyStr` / `strLower` / `pyTruthy` / `pyOr`.
  * The mutable ElementTree is embedded by a pure tree `Element`;
    in-place mutation becomes a function from the document to the new
    document.  `XML.SubElement(parent, tag)` appends a child; `find(tag)`
    returns the first direct child with the tag.
-/

namespace HipchatNotif

/-- A YAML/Python option value: boolean or string (the spec's OptionsMap
value domain). -/
inductive Value where
  | b (b : Bool)
  | s (s : String)
deriving DecidableEq, Repr

/-- An options mapping: association list with first-match lookup,
standing for a Python dict. -/
def OptionsMap := List (String × Value)

instance : DecidableEq OptionsMap := by
  unfold OptionsMap
  infer_instance

/-- Lookup `hipchat.get(k)`: first-match lookup, `none` when the key is absent. -/
def lookup : OptionsMap → String → Option Value
  | [], _ => none
  | (k, v) :: rest, key => if k = key then some v else lookup rest key

/-- Lookup `hipchat.get(k, d)` with a default. -/
def getD (o : OptionsMap) (k : String) (d : Value) : Value :=
  (lookup o k).getD d

/-- Python `str(...)` on an option value. -/
def pyStr : Value → String
  | .b true => "True"
  | .b false => "False"
  | .s s => s

/-- Python `str.lower()` (character-wise lower-casing). -/
def strLower (s : String) : String :=
  String.mk (s.data.map Char.toLower)

/-- Python truthiness of an option value: a boolean is itself, a string is
truthy iff non-empty. -/
def pyTruthy : Value → Bool
  | .b b => b
  | .s s => if s = "" then false else true

/-- Python truthiness of a mapping: truthy iff non-empty
(`not hipchat` in the source). -/
def pyTruthyMap : OptionsMap → Bool
  | [] => false
  | _ :: _ => true

/-- Python `x or y` on strings: `x` when `x` is truthy (non-empty),
else `y`. -/
def pyOr (a b : String) : String :=
  if a = "" then b else a

/-- An ElementTree element: a tag, optional text, and child elements.
(The source sets no attributes, so none are modelled.) -/
inductive Element where
  | mk (tag : String) (text : Option Value) (children : List Element)

def Element.tag : Element → String
  | .mk t _ _ => t

def Element.text : Element → Option Value
  | .mk _ x _ => x

def Element.children : Element → List Element
  | .mk _ _ c => c

/-- A leaf element carrying text, as produced by
`XML.SubElement(parent, tag).text = value`. -/
def textEl (tag : String) (v : Value) : Element :=
  .mk tag (some v) []

/-- Find `parent.find(tag)`: first direct child with the given tag. -/
def findIn : List Element → String → Option Element
  | [], _ => none
  | c :: cs, t => if c.tag = t then some c else findIn cs t

/-- Append a child to an element (`XML.SubElement(e, ...)`). -/
def appendChild (e : Element) (b : Element) : Element :=
  .mk e.tag e.text (e.children ++ [b])

/-- Append `b` to the children of the first element of the list tagged `t`;
`none` when no element has that tag. -/
def appendToFirst : List Element → String → Element → Option (List Element)
  | [], _, _ => none
  | c :: cs, t, b =>
      if c.tag = t then some (appendChild c b :: cs)
      else (appendToFirst cs t b).map (c :: ·)

/-- The find-or-create-section-then-append idiom of the source:
`section = parent.find(t); if section is None: section = SubElement(parent, t);
SubElement(section, ...)= b`.  The first child tagged `t` receives `b`;
when none exists a fresh section holding `b` is appended to `parent`. -/
def addBlock (parent : Element) (t : String) (b : Element) : Element :=
  match appendToFirst parent.children t b with
  | some cs => .mk parent.tag parent.text cs
  | none => .mk parent.tag parent.text
      (parent.children ++ [.mk t none [b]])

/-- Tag of the HipChat job property block (source lines 87-89). -/
def hipchatPropTag : String :=
  "jenkins.plugins.hipchat.HipChatNotifier_-HipChatJobProperty"

/-- Tag of the HipChat publisher block (source lines 125-126). -/
def hipchatPubTag : String :=
  "jenkins.plugins.hipchat.HipChatNotifier"

/-- The publisher block: source lines 125-133 — one `room` child whose text
is unconditionally the empty string. -/
def hippub : Element :=
  .mk hipchatPubTag none [textEl "room" (.s "")]

/-- The `startNotification` field, source lines 95-102: emitted when either
`start-notify` or `notify-start` is present (`is not None`); the value is
`str(get('notify-start','')) or str(get('start-notify',''))`, lower-cased,
with `''` replaced by `'false'`. -/
def startFields (hipchat : OptionsMap) : List Element :=
  if (lookup hipchat "start-notify").isSome
      || (lookup hipchat "notify-start").isSome then
    let value := pyOr (pyStr (getD hipchat "notify-start" (.s "")))
                      (pyStr (getD hipchat "start-notify" (.s "")))
    let value := strLower value
    let value := if value = "" then "false" else value
    [textEl "startNotification" (.s value)]
  else []

/-- One direct notify-* field (source lines 103-120): when key `k` is
present, a child tagged `f` with text `str(value).lower()`; nothing when
absent. -/
def optField (hipchat : OptionsMap) (k f : String) : List Element :=
  match lookup hipchat k with
  | some v => [textEl f (.s (strLower (pyStr v)))]
  | none => []

/-- The children of the property block, in the order the source appends
them (lines 90-120): `room` first, then the optional `startNotification`,
then the six optional notify-* fields. -/
def pdefhipFields (hipchat : OptionsMap) : List Element :=
  textEl "room" (getD hipchat "room" (.s ""))
    :: (startFields hipchat
        ++ optField hipchat "notify-success" "notifySuccess"
        ++ optField hipchat "notify-aborted" "notifyAborted"
        ++ optField hipchat "notify-not-built" "notifyNotBuilt"
        ++ optField hipchat "notify-unstable" "notifyUnstable"
        ++ optField hipchat "notify-failure" "notifyFailure"
        ++ optField hipchat "notify-back-to-normal" "notifyBackToNormal")

/-- The fully built property block `pdefhip` (source lines 87-120). -/
def pdefhipOf (hipchat : OptionsMap) : Element :=
  .mk hipchatPropTag none (pdefhipFields hipchat)

/-- The method `HipChat.gen_xml`, source lines 79-133, as a function from the document
to the new document.  The first argument embeds `data.get('hipchat')`
(`none` = key absent or value `None`).  Gate: `if not hipchat or not
hipchat.get('enabled', True): return`.  Then the property block is added
under the found-or-created `properties` section and the publisher block
under the found-or-created `publishers` section, in that order. -/
def gen_xml (hipchat? : Option OptionsMap) (xml_parent : Element) : Element :=
  match hipchat? with
  | none => xml_parent
  | some hipchat =>
      if !pyTruthyMap hipchat
          || !pyTruthy (getD hipchat "enabled" (.b true)) then
        xml_parent
      else
        let parent1 := addBlock xml_parent "properties" (pdefhipOf hipchat)
        addBlock parent1 "publishers" hippub

/-- The gate of `gen_xml` passes: the options mapping is truthy (non-empty)
and `enabled` (defaulting to true) is truthy. -/
def EnabledCall (o : OptionsMap) : Prop :=
  pyTruthyMap o = true ∧ pyTruthy (getD o "enabled" (.b true)) = true

instance (o : OptionsMap) : Decidable (EnabledCall o) := by
  unfold EnabledCall
  infer_instance

/-- Text of the first child of `e` tagged `t`, when any. -/
def fieldText (e : Element) (t : String) : Option Value :=
  (findIn e.children t).bind Element.text

/-- Number of direct elements of the list with the given tag. -/
def countTag : List Element → String → Nat
  | [], _ => 0
  | c :: cs, t => (if c.tag = t then 1 else 0) + countTag cs t

/-- Total number of blocks tagged `g` sitting under sections tagged `s`. -/
def blocksIn : List Element → String → String → Nat
  | [], _, _ => 0
  | c :: rest, s, g =>
      (if c.tag = s then countTag c.children g else 0) + blocksIn rest s g

/-- Number of HipChat property blocks under `properties` sections of the
document root. -/
def propBlockCount (doc : Element) : Nat :=
  blocksIn doc.children "properties" hipchatPropTag

/-- Number of HipChat publisher blocks under `publishers` sections of the
document root. -/
def pubBlockCount (doc : Element) : Nat :=
  blocksIn doc.children "publishers" hipchatPubTag

/-- A bare document root, as the surrounding pipeline creates it before any
module runs. -/
def root0 : Element := .mk "project" none []

/-! ### Basic lemmas about the embedding -/

theorem strLower_data (l : List Char) :
    strLower (String.mk l) = String.mk (l.map Char.toLower) := rfl

theorem strLower_eq_empty_iff (s : String) : strLower s = "" ↔ s = "" := by
  cases s with
  | mk l =>
    cases l with
    | nil => simp [strLower]
    | cons c cs =>
      constructor
      · intro h
        have := congrArg String.data h
        simp [strLower] at this
      · intro h
        have := congrArg String.data h
        simp at this

theorem gen_xml_enabled_eq (o : OptionsMap) (doc : Element)
    (h : EnabledCall o) :
    gen_xml (some o) doc =
      addBlock (addBlock doc "properties" (pdefhipOf o)) "publishers" hippub := by
  obtain ⟨h1, h2⟩ := h
  simp [gen_xml, h1, h2]

theorem gen_xml_disabled (o : OptionsMap) (doc : Element)
    (h : ¬ EnabledCall o) : gen_xml (some o) doc = doc := by
  unfold EnabledCall at h
  unfold gen_xml
  by_cases h1 : pyTruthyMap o = true
  · by_cases h2 : pyTruthy (getD o "enabled" (.b true)) = true
    · exact absurd ⟨h1, h2⟩ h
    · simp [Bool.eq_false_iff.mpr fun hb => h2 hb]
  · simp [Bool.eq_false_iff.mpr fun hb => h1 hb]

theorem findIn_append_none : ∀ (l1 l2 : List Element) (t : String),
    findIn l1 t = none → findIn (l1 ++ l2) t = findIn l2 t
  | [], _, _, _ => rfl
  | c :: cs, l2, t, h => by
      by_cases hc : c.tag = t
      · simp [findIn, hc] at h
      · simp only [List.cons_append, findIn, if_neg hc] at h ⊢
        exact findIn_append_none cs l2 t h

theorem findIn_append_some : ∀ (l1 l2 : List Element) (t : String) (e : Element),
    findIn l1 t = some e → findIn (l1 ++ l2) t = some e
  | [], _, _, _, h => by simp [findIn] at h
  | c :: cs, l2, t, e, h => by
      by_cases hc : c.tag = t
      · simp only [findIn, if_pos hc] at h
        simp only [List.cons_append, findIn, if_pos hc, h]
      · simp only [findIn, if_neg hc] at h
        simp only [List.cons_append, findIn, if_neg hc]
        exact findIn_append_some cs l2 t e h

theorem findIn_eq_none (l : List Element) (t : String)
    (h : ∀ e ∈ l, e.tag ≠ t) : findIn l t = none := by
  induction l with
  | nil => rfl
  | cons c cs ih =>
      simp only [findIn, if_neg (h c (by simp))]
      exact ih fun e he => h e (by simp [he])

theorem tag_mem_optField (o : OptionsMap) (k f : String) :
    ∀ e ∈ optField o k f, e.tag = f := by
  unfold optField
  cases lookup o k <;> simp [textEl, Element.tag]

theorem tag_mem_startFields (o : OptionsMap) :
    ∀ e ∈ startFields o, e.tag = "startNotification" := by
  unfold startFields
  split <;> simp [textEl, Element.tag]

theorem findIn_optField_head (o : OptionsMap) (k f : String)
    (rest : List Element) (hrest : findIn rest f = none) :
    findIn (optField o k f ++ rest) f =
      (lookup o k).map (fun v => textEl f (.s (strLower (pyStr v)))) := by
  cases h : lookup o k with
  | none => simp [optField, h, hrest]
  | some v => simp [optField, h, findIn, textEl, Element.tag]

theorem findIn_optField_ne (o : OptionsMap) (k f t : String) (h : f ≠ t) :
    findIn (optField o k f) t = none :=
  findIn_eq_none _ _ fun e he => by rw [tag_mem_optField o k f e he]; exact h

theorem findIn_optField_append_ne (o : OptionsMap) (k f t : String)
    (h : f ≠ t) (rest : List Element) :
    findIn (optField o k f ++ rest) t = findIn rest t :=
  findIn_append_none _ _ _ (findIn_optField_ne o k f t h)

theorem findIn_optField_self (o : OptionsMap) (k f : String) :
    findIn (optField o k f) f =
      (lookup o k).map (fun v => textEl f (.s (strLower (pyStr v)))) := by
  cases h : lookup o k with
  | none => simp [optField, h, findIn]
  | some v => simp [optField, h, findIn, textEl, Element.tag]

theorem findIn_startFields_append_ne (o : OptionsMap) (t : String)
    (h : ¬ t = "startNotification") (rest : List Element) :
    findIn (startFields o ++ rest) t = findIn rest t :=
  findIn_append_none _ _ _ (findIn_eq_none _ _ fun e he => by
    rw [tag_mem_startFields o e he]; exact fun hh => h hh.symm)

theorem fieldText_mk (t : String) (x : Option Value) (cs : List Element)
    (f : String) : fieldText (.mk t x cs) f = (findIn cs f).bind Element.text :=
  rfl

theorem fieldText_room (o : OptionsMap) :
    fieldText (pdefhipOf o) "room" = some (getD o "room" (.s "")) := by
  rw [pdefhipOf, fieldText_mk, pdefhipFields]
  rw [findIn, if_pos (by simp [textEl, Element.tag])]
  simp [textEl, Element.text]

theorem fieldText_startNotification (o : OptionsMap) :
    fieldText (pdefhipOf o) "startNotification" =
      (findIn (startFields o) "startNotification").bind Element.text := by
  rw [pdefhipOf, fieldText_mk, pdefhipFields]
  rw [findIn, if_neg (by simp [textEl, Element.tag])]
  simp only [List.append_assoc]
  cases hS : findIn (startFields o) "startNotification" with
  | none =>
      rw [findIn_append_none _ _ _ hS]
      rw [findIn_optField_append_ne o _ _ _ (by decide)]
      rw [findIn_optField_append_ne o _ _ _ (by decide)]
      rw [findIn_optField_append_ne o _ _ _ (by decide)]
      rw [findIn_optField_append_ne o _ _ _ (by decide)]
      rw [findIn_optField_append_ne o _ _ _ (by decide)]
      rw [findIn_optField_ne o _ _ _ (by decide)]
  | some e => rw [findIn_append_some _ _ _ _ hS]

theorem fieldText_notifySuccess (o : OptionsMap) :
    fieldText (pdefhipOf o) "notifySuccess" =
      (lookup o "notify-success").map (fun v => Value.s (strLower (pyStr v))) := by
  rw [pdefhipOf, fieldText_mk, pdefhipFields]
  rw [findIn, if_neg (by simp [textEl, Element.tag])]
  simp only [List.append_assoc]
  rw [findIn_startFields_append_ne o _ (by decide)]
  rw [findIn_optField_head o _ _ _ (by
    rw [findIn_optField_append_ne o _ _ _ (by decide)]
    rw [findIn_optField_append_ne o _ _ _ (by decide)]
    rw [findIn_optField_append_ne o _ _ _ (by decide)]
    rw [findIn_optField_append_ne o _ _ _ (by decide)]
    exact findIn_optField_ne o _ _ _ (by decide))]
  cases h : lookup o "notify-success" <;> simp [textEl, Element.text]

theorem fieldText_notifyAborted (o : OptionsMap) :
    fieldText (pdefhipOf o) "notifyAborted" =
      (lookup o "notify-aborted").map (fun v => Value.s (strLower (pyStr v))) := by
  rw [pdefhipOf, fieldText_mk, pdefhipFields]
  rw [findIn, if_neg (by simp [textEl, Element.tag])]
  simp only [List.append_assoc]
  rw [findIn_startFields_append_ne o _ (by decide)]
  rw [findIn_optField_append_ne o _ _ _ (by decide)]
  rw [findIn_optField_head o _ _ _ (by
    rw [findIn_optField_append_ne o _ _ _ (by decide)]
    rw [findIn_optField_append_ne o _ _ _ (by decide)]
    rw [findIn_optField_append_ne o _ _ _ (by decide)]
    exact findIn_optField_ne o _ _ _ (by decide))]
  cases h : lookup o "notify-aborted" <;> simp [textEl, Element.text]

theorem fieldText_notifyNotBuilt (o : OptionsMap) :
    fieldText (pdefhipOf o) "notifyNotBuilt" =
      (lookup o "notify-not-built").map (fun v => Value.s (strLower (pyStr v))) := by
  rw [pdefhipOf, fieldText_mk, pdefhipFields]
  rw [findIn, if_neg (by simp [textEl, Element.tag])]
  simp only [List.append_assoc]
  rw [findIn_startFields_append_ne o _ (by decide)]
  rw [findIn_optField_append_ne o _ _ _ (by decide)]
  rw [findIn_optField_append_ne o _ _ _ (by decide)]
  rw [findIn_optField_head o _ _ _ (by
    rw [findIn_optField_append_ne o _ _ _ (by decide)]
    rw [findIn_optField_append_ne o _ _ _ (by decide)]
    exact findIn_optField_ne o _ _ _ (by decide))]
  cases h : lookup o "notify-not-built" <;> simp [textEl, Element.text]

theorem fieldText_notifyUnstable (o : OptionsMap) :
    fieldText (pdefhipOf o) "notifyUnstable" =
      (lookup o "notify-unstable").map (fun v => Value.s (strLower (pyStr v))) := by
  rw [pdefhipOf, fieldText_mk, pdefhipFields]
  rw [findIn, if_neg (by simp [textEl, Element.tag])]
  simp only [List.append_assoc]
  rw [findIn_startFields_append_ne o _ (by decide)]
  rw [findIn_optField_append_ne o _ _ _ (by decide)]
  rw [findIn_optField_append_ne o _ _ _ (by decide)]
  rw [findIn_optField_append_ne o _ _ _ (by decide)]
  rw [findIn_optField_head o _ _ _ (by
    rw [findIn_optField_append_ne o _ _ _ (by decide)]
    exact findIn_optField_ne o _ _ _ (by decide))]
  cases h : lookup o "notify-unstable" <;> simp [textEl, Element.text]

theorem fieldText_notifyFailure (o : OptionsMap) :
    fieldText (pdefhipOf o) "notifyFailure" =
      (lookup o "notify-failure").map (fun v => Value.s (strLower (pyStr v))) := by
  rw [pdefhipOf, fieldText_mk, pdefhipFields]
  rw [findIn, if_neg (by simp [textEl, Element.tag])]
  simp only [List.append_assoc]
  rw [findIn_startFields_append_ne o _ (by decide)]
  rw [findIn_optField_append_ne o _ _ _ (by decide)]
  rw [findIn_optField_append_ne o _ _ _ (by decide)]
  rw [findIn_optField_append_ne o _ _ _ (by decide)]
  rw [findIn_optField_append_ne o _ _ _ (by decide)]
  rw [findIn_optField_head o _ _ _ (findIn_optField_ne o _ _ _ (by decide))]
  cases h : lookup o "notify-failure" <;> simp [textEl, Element.text]

theorem fieldText_notifyBackToNormal (o : OptionsMap) :
    fieldText (pdefhipOf o) "notifyBackToNormal" =
      (lookup o "notify-back-to-normal").map
        (fun v => Value.s (strLower (pyStr v))) := by
  rw [pdefhipOf, fieldText_mk, pdefhipFields]
  rw [findIn, if_neg (by simp [textEl, Element.tag])]
  simp only [List.append_assoc]
  rw [findIn_startFields_append_ne o _ (by decide)]
  rw [findIn_optField_append_ne o _ _ _ (by decide)]
  rw [findIn_optField_append_ne o _ _ _ (by decide)]
  rw [findIn_optField_append_ne o _ _ _ (by decide)]
  rw [findIn_optField_append_ne o _ _ _ (by decide)]
  rw [findIn_optField_append_ne o _ _ _ (by decide)]
  rw [findIn_optField_self]
  cases h : lookup o "notify-back-to-normal" <;> simp [textEl, Element.text]

/-! ### Counting lemmas: section and block counts under addBlock -/

theorem appendChild_tag (c b : Element) : (appendChild c b).tag = c.tag := by
  cases c; rfl

theorem appendChild_text (c b : Element) : (appendChild c b).text = c.text := by
  cases c; rfl

theorem appendChild_children (c b : Element) :
    (appendChild c b).children = c.children ++ [b] := by
  cases c; rfl

theorem countTag_append (l1 l2 : List Element) (t : String) :
    countTag (l1 ++ l2) t = countTag l1 t + countTag l2 t := by
  induction l1 with
  | nil => simp [countTag]
  | cons c cs ih => simp [countTag, ih, Nat.add_assoc]

theorem appendToFirst_none_iff (cs : List Element) (t : String) (b : Element) :
    appendToFirst cs t b = none ↔ countTag cs t = 0 := by
  induction cs with
  | nil => simp [appendToFirst, countTag]
  | cons c cs ih =>
      by_cases hc : c.tag = t
      · simp [appendToFirst, countTag, hc]
      · simp [appendToFirst, countTag, hc, ih]

theorem countTag_appendToFirst (cs : List Element) (t : String) (b : Element)
    (cs' : List Element) (h : appendToFirst cs t b = some cs') (t' : String) :
    countTag cs' t' = countTag cs t' := by
  induction cs generalizing cs' with
  | nil => simp [appendToFirst] at h
  | cons c cs ih =>
      by_cases hc : c.tag = t
      · simp only [appendToFirst, if_pos hc, Option.some.injEq] at h
        subst h
        simp [countTag, appendChild_tag]
      · simp only [appendToFirst, if_neg hc, Option.map_eq_some'] at h
        obtain ⟨cs0, h0, rfl⟩ := h
        simp [countTag, ih cs0 h0]

theorem blocksIn_append (l1 l2 : List Element) (s g : String) :
    blocksIn (l1 ++ l2) s g = blocksIn l1 s g + blocksIn l2 s g := by
  induction l1 with
  | nil => simp [blocksIn]
  | cons c cs ih => simp [blocksIn, ih, Nat.add_assoc]

theorem blocksIn_appendToFirst_self (cs : List Element) (s : String)
    (b : Element) (cs' : List Element) (h : appendToFirst cs s b = some cs')
    (g : String) :
    blocksIn cs' s g = blocksIn cs s g + (if b.tag = g then 1 else 0) := by
  induction cs generalizing cs' with
  | nil => simp [appendToFirst] at h
  | cons c cs ih =>
      by_cases hc : c.tag = s
      · simp only [appendToFirst, if_pos hc, Option.some.injEq] at h
        subst h
        simp [blocksIn, appendChild_tag, appendChild_children, hc,
          countTag_append, countTag]
        by_cases hb : b.tag = g
        all_goals simp [hb]
        all_goals omega
      · simp only [appendToFirst, if_neg hc, Option.map_eq_some'] at h
        obtain ⟨cs0, h0, rfl⟩ := h
        simp [blocksIn, ih cs0 h0, Nat.add_assoc]

theorem blocksIn_appendToFirst_ne (cs : List Element) (s : String)
    (b : Element) (cs' : List Element) (h : appendToFirst cs s b = some cs')
    (s' g : String) (hne : s' ≠ s) :
    blocksIn cs' s' g = blocksIn cs s' g := by
  induction cs generalizing cs' with
  | nil => simp [appendToFirst] at h
  | cons c cs ih =>
      by_cases hc : c.tag = s
      · simp only [appendToFirst, if_pos hc, Option.some.injEq] at h
        subst h
        have hcs' : c.tag ≠ s' := by rw [hc]; exact fun hh => hne hh.symm
        simp [blocksIn, appendChild_tag, hcs']
      · simp only [appendToFirst, if_neg hc, Option.map_eq_some'] at h
        obtain ⟨cs0, h0, rfl⟩ := h
        simp [blocksIn, ih cs0 h0]

theorem blocksIn_addBlock_self (doc : Element) (s : String) (b : Element)
    (g : String) (hb : b.tag = g) :
    blocksIn (addBlock doc s b).children s g = blocksIn doc.children s g + 1 := by
  cases doc with
  | mk tg x cs =>
      cases h : appendToFirst cs s b with
      | some cs2 =>
          simp only [addBlock, Element.children, h]
          rw [blocksIn_appendToFirst_self cs s b cs2 h, if_pos hb]
      | none =>
          simp [addBlock, Element.children, h, blocksIn_append, blocksIn,
            countTag, Element.tag, hb]
          exact hb

theorem blocksIn_addBlock_ne (doc : Element) (s : String) (b : Element)
    (s' g : String) (hne : s' ≠ s) :
    blocksIn (addBlock doc s b).children s' g = blocksIn doc.children s' g := by
  cases doc with
  | mk tg x cs =>
      cases h : appendToFirst cs s b with
      | some cs2 =>
          simp only [addBlock, Element.children, h]
          exact blocksIn_appendToFirst_ne cs s b cs2 h s' g hne
      | none =>
          simp [addBlock, Element.children, h, blocksIn_append, blocksIn,
            countTag, Element.tag, Ne.symm hne]

theorem countTag_addBlock_self (doc : Element) (t : String) (b : Element) :
    countTag (addBlock doc t b).children t =
      if countTag doc.children t = 0 then 1 else countTag doc.children t := by
  cases doc with
  | mk tg x cs =>
      cases h : appendToFirst cs t b with
      | some cs2 =>
          have h0 : countTag cs t ≠ 0 := by
            intro hz
            rw [(appendToFirst_none_iff cs t b).mpr hz] at h
            cases h
          simp only [addBlock, Element.children, h]
          rw [countTag_appendToFirst cs t b cs2 h, if_neg h0]
      | none =>
          have h0 : countTag cs t = 0 := (appendToFirst_none_iff cs t b).mp h
          simp [addBlock, Element.children, h, countTag_append, countTag,
            Element.tag, h0]

theorem countTag_addBlock_ne (doc : Element) (t : String) (b : Element)
    (t' : String) (h : t' ≠ t) :
    countTag (addBlock doc t b).children t' = countTag doc.children t' := by
  cases doc with
  | mk tg x cs =>
      cases h' : appendToFirst cs t b with
      | some cs2 =>
          simp only [addBlock, Element.children, h']
          exact countTag_appendToFirst cs t b cs2 h' t'
      | none =>
          simp [addBlock, Element.children, h', countTag_append, countTag,
            Element.tag, Ne.symm h]

theorem propBlockCount_gen_xml (o : OptionsMap) (doc : Element)
    (he : EnabledCall o) :
    propBlockCount (gen_xml (some o) doc) = propBlockCount doc + 1 := by
  rw [gen_xml_enabled_eq o doc he]
  unfold propBlockCount
  rw [blocksIn_addBlock_ne (addBlock doc "properties" (pdefhipOf o))
    "publishers" hippub "properties" hipchatPropTag (by decide)]
  rw [blocksIn_addBlock_self doc "properties" (pdefhipOf o) hipchatPropTag rfl]

theorem pubBlockCount_gen_xml (o : OptionsMap) (doc : Element)
    (he : EnabledCall o) :
    pubBlockCount (gen_xml (some o) doc) = pubBlockCount doc + 1 := by
  rw [gen_xml_enabled_eq o doc he]
  unfold pubBlockCount
  rw [blocksIn_addBlock_self (addBlock doc "properties" (pdefhipOf o))
    "publishers" hippub hipchatPubTag rfl]
  rw [blocksIn_addBlock_ne doc "properties" (pdefhipOf o)
    "publishers" hipchatPubTag (by decide)]

/-! ### The append-only frame relation -/

mutual
/-- Frame relation for elements: same tag, same text, and the old children
appear in place, each recursively extended, with new children possibly
appended at the end. -/
def Extends : Element → Element → Prop
  | .mk t x cs, .mk t2 x2 cs2 => t = t2 ∧ x = x2 ∧ ExtendsL cs cs2

/-- Frame relation on child lists: each old child maps in order to an
extended child; extra new children may follow at the end. -/
def ExtendsL : List Element → List Element → Prop
  | [], _ => True
  | _ :: _, [] => False
  | c :: cs, c2 :: cs2 => Extends c c2 ∧ ExtendsL cs cs2
end

mutual
theorem extends_refl : ∀ (e : Element), Extends e e
  | .mk t x cs => by
      rw [Extends]
      exact ⟨rfl, rfl, extendsL_refl cs⟩

theorem extendsL_refl : ∀ (cs : List Element), ExtendsL cs cs
  | [] => by rw [ExtendsL]; trivial
  | c :: cs => by
      rw [ExtendsL]
      exact ⟨extends_refl c, extendsL_refl cs⟩
end

mutual
theorem extends_trans : ∀ (a b c : Element),
    Extends a b → Extends b c → Extends a c
  | .mk t1 x1 l1, .mk t2 x2 l2, .mk t3 x3 l3 => fun h g => by
      rw [Extends] at h g ⊢
      exact ⟨h.1.trans g.1, h.2.1.trans g.2.1,
        extendsL_trans l1 l2 l3 h.2.2 g.2.2⟩

theorem extendsL_trans : ∀ (l1 l2 l3 : List Element),
    ExtendsL l1 l2 → ExtendsL l2 l3 → ExtendsL l1 l3
  | [], _, l3 => fun _ _ => by rw [ExtendsL]; trivial
  | a :: as, [], _ => fun h _ => by rw [ExtendsL] at h; exact h.elim
  | a :: as, b :: bs, [] => fun _ g => by rw [ExtendsL] at g; exact g.elim
  | a :: as, b :: bs, c :: cs => fun h g => by
      rw [ExtendsL] at h g ⊢
      exact ⟨extends_trans a b c h.1 g.1, extendsL_trans as bs cs h.2 g.2⟩
end

theorem extendsL_append_right : ∀ (l tail : List Element), ExtendsL l (l ++ tail)
  | [], tail => by rw [ExtendsL]; trivial
  | c :: cs, tail => by
      rw [List.cons_append, ExtendsL]
      exact ⟨extends_refl c, extendsL_append_right cs tail⟩

theorem extends_appendChild (c b : Element) : Extends c (appendChild c b) := by
  cases c with
  | mk t x cs =>
      rw [appendChild]
      rw [Extends]
      exact ⟨rfl, rfl, extendsL_append_right _ _⟩

theorem extendsL_appendToFirst (cs : List Element) (t : String) (b : Element)
    (cs' : List Element) (h : appendToFirst cs t b = some cs') :
    ExtendsL cs cs' := by
  induction cs generalizing cs' with
  | nil => simp [appendToFirst] at h
  | cons c cs ih =>
      by_cases hc : c.tag = t
      · simp only [appendToFirst, if_pos hc, Option.some.injEq] at h
        subst h
        rw [ExtendsL]
        exact ⟨extends_appendChild c b, extendsL_refl cs⟩
      · simp only [appendToFirst, if_neg hc, Option.map_eq_some'] at h
        obtain ⟨cs0, h0, rfl⟩ := h
        rw [ExtendsL]
        exact ⟨extends_refl c, ih cs0 h0⟩

theorem extends_addBlock (doc : Element) (t : String) (b : Element) :
    Extends doc (addBlock doc t b) := by
  cases doc with
  | mk tg x cs =>
      cases h : appendToFirst cs t b with
      | some cs2 =>
          simp only [addBlock, Element.children, h]
          rw [Extends]
          exact ⟨rfl, rfl, extendsL_appendToFirst cs t b cs2 h⟩
      | none =>
          simp only [addBlock, Element.children, h]
          rw [Extends]
          exact ⟨rfl, rfl, extendsL_append_right _ _⟩

/-! ### Complete blocks -/

/-- A block is complete when it carries its mandatory `room` field and every
field is a filled leaf: text present, no children.  A half-built block (as
could be feared from the attach-then-fill style of the source) would
violate this. -/
def CompleteBlock (e : Element) : Prop :=
  (findIn e.children "room").isSome ∧
    ∀ c ∈ e.children, c.text.isSome ∧ c.children = []

theorem mem_startFields (o : OptionsMap) (e : Element)
    (h : e ∈ startFields o) : ∃ v, e = textEl "startNotification" v := by
  unfold startFields at h
  split at h
  · simp at h
    exact ⟨_, h⟩
  · simp at h

theorem mem_optField (o : OptionsMap) (k f : String) (e : Element)
    (h : e ∈ optField o k f) : ∃ v, e = textEl f v := by
  unfold optField at h
  cases hk : lookup o k <;> rw [hk] at h
  · simp at h
  · simp at h
    exact ⟨_, h⟩

theorem mem_pdefhipFields (o : OptionsMap) (c : Element)
    (hc : c ∈ pdefhipFields o) : ∃ t v, c = textEl t v := by
  rw [pdefhipFields] at hc
  rcases List.mem_cons.mp hc with rfl | hc
  · exact ⟨_, _, rfl⟩
  rcases List.mem_append.mp hc with hc | hc
  rotate_left
  · obtain ⟨v, rfl⟩ := mem_optField o _ _ c hc
    exact ⟨_, _, rfl⟩
  rcases List.mem_append.mp hc with hc | hc
  rotate_left
  · obtain ⟨v, rfl⟩ := mem_optField o _ _ c hc
    exact ⟨_, _, rfl⟩
  rcases List.mem_append.mp hc with hc | hc
  rotate_left
  · obtain ⟨v, rfl⟩ := mem_optField o _ _ c hc
    exact ⟨_, _, rfl⟩
  rcases List.mem_append.mp hc with hc | hc
  rotate_left
  · obtain ⟨v, rfl⟩ := mem_optField o _ _ c hc
    exact ⟨_, _, rfl⟩
  rcases List.mem_append.mp hc with hc | hc
  rotate_left
  · obtain ⟨v, rfl⟩ := mem_optField o _ _ c hc
    exact ⟨_, _, rfl⟩
  rcases List.mem_append.mp hc with hc | hc
  · obtain ⟨v, rfl⟩ := mem_startFields o c hc
    exact ⟨_, _, rfl⟩
  · obtain ⟨v, rfl⟩ := mem_optField o _ _ c hc
    exact ⟨_, _, rfl⟩

theorem completeBlock_pdefhip (o : OptionsMap) : CompleteBlock (pdefhipOf o) := by
  constructor
  · rw [pdefhipOf, Element.children, pdefhipFields]
    rw [findIn, if_pos (by simp [textEl, Element.tag])]
    rfl
  · intro c hc
    rw [pdefhipOf, Element.children] at hc
    obtain ⟨t, v, rfl⟩ := mem_pdefhipFields o c hc
    exact ⟨rfl, rfl⟩

theorem completeBlock_hippub : CompleteBlock hippub := by
  constructor
  · rfl
  · intro c hc
    simp only [hippub, textEl, Element.children, List.mem_singleton] at hc
    subst hc
    exact ⟨rfl, rfl⟩

/-! ### A spec-side rendering of the startNotification precedence -/

/-- Modelled from the spec wording for the startNotification precedence, to
be compared with the source embedding: prefer the string of the
notify-start value when present and non-empty; else the string of the
start-notify value when non-empty; else the literal string false; the
chosen value is lower-cased; with neither key present, no field at all. -/
def specStartNotification (o : OptionsMap) : Option String :=
  match lookup o "notify-start", lookup o "start-notify" with
  | none, none => none
  | ns, sn =>
      let nsStr := match ns with | some v => pyStr v | none => ""
      let snStr := match sn with | some v => pyStr v | none => ""
      some (if nsStr ≠ "" then strLower nsStr
            else if snStr ≠ "" then strLower snStr
            else "false")

theorem pyStr_s (t : String) : pyStr (.s t) = t := rfl

theorem strLower_empty : strLower "" = "" := rfl

theorem code_spec_value (a b : String) :
    (if strLower (pyOr a b) = "" then "false" else strLower (pyOr a b)) =
      (if a ≠ "" then strLower a else if b ≠ "" then strLower b else "false") := by
  by_cases ha : a = ""
  · by_cases hb : b = "" <;>
      simp [pyOr, ha, hb, strLower_eq_empty_iff, strLower_empty]
  · simp [pyOr, ha, strLower_eq_empty_iff]

theorem startFields_text (o : OptionsMap) :
    (findIn (startFields o) "startNotification").bind Element.text =
      if (lookup o "start-notify").isSome
          || (lookup o "notify-start").isSome then
        some (.s (if strLower (pyOr (pyStr (getD o "notify-start" (.s "")))
                        (pyStr (getD o "start-notify" (.s "")))) = ""
                  then "false"
                  else strLower (pyOr (pyStr (getD o "notify-start" (.s "")))
                        (pyStr (getD o "start-notify" (.s "")))))) 
      else none := by
  unfold startFields
  split <;> simp [findIn, textEl, Element.tag, Element.text]

theorem startFields_eq_spec (o : OptionsMap) :
    (findIn (startFields o) "startNotification").bind Element.text =
      (specStartNotification o).map Value.s := by
  rw [startFields_text]
  cases hns : lookup o "notify-start" with
  | none =>
      cases hsn : lookup o "start-notify" with
      | none => simp [specStartNotification, hns, hsn]
      | some w =>
          simp [specStartNotification, hns, hsn, getD, code_spec_value, pyStr_s]
  | some v =>
      cases hsn : lookup o "start-notify" with
      | none =>
          simp [specStartNotification, hns, hsn, getD, code_spec_value, pyStr_s]
      | some w =>
          simp [specStartNotification, hns, hsn, getD, code_spec_value, pyStr_s]

/-! ### Section counts after a call -/

theorem countTag_gen_xml_properties (o : OptionsMap) (doc : Element)
    (he : EnabledCall o) :
    countTag (gen_xml (some o) doc).children "properties" =
      if countTag doc.children "properties" = 0 then 1
      else countTag doc.children "properties" := by
  rw [gen_xml_enabled_eq o doc he]
  rw [countTag_addBlock_ne (addBlock doc "properties" (pdefhipOf o))
    "publishers" hippub "properties" (by decide)]
  rw [countTag_addBlock_self doc "properties" (pdefhipOf o)]

theorem countTag_gen_xml_publishers (o : OptionsMap) (doc : Element)
    (he : EnabledCall o) :
    countTag (gen_xml (some o) doc).children "publishers" =
      if countTag doc.children "publishers" = 0 then 1
      else countTag doc.children "publishers" := by
  rw [gen_xml_enabled_eq o doc he]
  rw [countTag_addBlock_self (addBlock doc "properties" (pdefhipOf o))
    "publishers" hippub]
  rw [countTag_addBlock_ne doc "properties" (pdefhipOf o)
    "publishers" (by decide)]

/-! ### The claims -/

/-- C1 (amended): for every non-empty options mapping with enabled absent
or truthy, the call adds exactly one HipChat property block under the
properties sections and exactly one HipChat publisher block under the
publishers sections; for every mapping with enabled present and falsy, the
document is returned unchanged.  (The amendment restricts the first half to
non-empty mappings: the source returns early on a falsy — empty — mapping
even though enabled is absent there.) -/
theorem hipchat_c1 (o : OptionsMap) (doc : Element) :
    (o ≠ [] →
      (lookup o "enabled" = none ∨
        ∃ v, lookup o "enabled" = some v ∧ pyTruthy v = true) →
      propBlockCount (gen_xml (some o) doc) = propBlockCount doc + 1 ∧
      pubBlockCount (gen_xml (some o) doc) = pubBlockCount doc + 1) ∧
    (∀ v, lookup o "enabled" = some v → pyTruthy v = false →
      gen_xml (some o) doc = doc) := by
  constructor
  · intro hne hen
    have he : EnabledCall o := by
      constructor
      · cases o with
        | nil => exact absurd rfl hne
        | cons a l => rfl
      · rcases hen with h | ⟨v, hv, htv⟩
        · simp [getD, h, pyTruthy]
        · simp [getD, hv, htv]
    exact ⟨propBlockCount_gen_xml o doc he, pubBlockCount_gen_xml o doc he⟩
  · intro v hv hf
    apply gen_xml_disabled
    rintro ⟨h1, h2⟩
    simp [getD, hv, hf] at h2

/-- C1 counterexample to the claim as stated: in the empty options mapping
the key enabled is absent, yet the call adds zero blocks and leaves the
document unchanged — the source returns early on any falsy mapping. -/
theorem hipchat_c1_counterexample :
    lookup ([] : OptionsMap) "enabled" = none ∧
    gen_xml (some ([] : OptionsMap)) root0 = root0 ∧
    propBlockCount (gen_xml (some ([] : OptionsMap)) root0) = 0 ∧
    pubBlockCount (gen_xml (some ([] : OptionsMap)) root0) = 0 :=
  ⟨rfl, rfl, rfl, rfl⟩

/-- C1 witness: a non-empty mapping without enabled gains one block of each
kind on a bare root; a mapping with enabled false leaves the root
unchanged. -/
theorem hipchat_c1_witness :
    ([("room", Value.s "dev")] : OptionsMap) ≠ [] ∧
    lookup [("room", Value.s "dev")] "enabled" = none ∧
    propBlockCount (gen_xml (some [("room", Value.s "dev")]) root0) =
      propBlockCount root0 + 1 ∧
    pubBlockCount (gen_xml (some [("room", Value.s "dev")]) root0) =
      pubBlockCount root0 + 1 ∧
    gen_xml (some [("enabled", Value.b false)]) root0 = root0 := by
  refine ⟨by decide, by decide, ?_, ?_, ?_⟩
  · exact ((hipchat_c1 [("room", Value.s "dev")] root0).1 (by decide)
      (Or.inl (by decide))).1
  · exact ((hipchat_c1 [("room", Value.s "dev")] root0).1 (by decide)
      (Or.inl (by decide))).2
  · exact (hipchat_c1 [("enabled", Value.b false)] root0).2
      (Value.b false) (by decide) (by decide)

/-- C2: for every enabled options mapping the call attaches the property
block, and the startNotification field of that block agrees with the
spec-worded precedence specStartNotification: prefer notify-start when its
string is non-empty, else start-notify when non-empty, else the literal
false; no field when neither key is present. -/
theorem hipchat_c2 (o : OptionsMap) (doc : Element) (he : EnabledCall o) :
    gen_xml (some o) doc =
      addBlock (addBlock doc "properties" (pdefhipOf o)) "publishers" hippub ∧
    fieldText (pdefhipOf o) "startNotification" =
      (specStartNotification o).map Value.s :=
  ⟨gen_xml_enabled_eq o doc he,
   (fieldText_startNotification o).trans (startFields_eq_spec o)⟩

/-- C2 witness: with start-notify true and notify-start false,
notify-start wins and startNotification is the string false. -/
theorem hipchat_c2_witness :
    EnabledCall [("start-notify", Value.b true), ("notify-start", Value.b false)] ∧
    (gen_xml (some [("start-notify", Value.b true), ("notify-start", Value.b false)]) root0 =
      addBlock (addBlock root0 "properties"
        (pdefhipOf [("start-notify", Value.b true), ("notify-start", Value.b false)]))
        "publishers" hippub ∧
     fieldText (pdefhipOf [("start-notify", Value.b true), ("notify-start", Value.b false)])
        "startNotification" =
      (specStartNotification
        [("start-notify", Value.b true), ("notify-start", Value.b false)]).map Value.s) ∧
    specStartNotification
      [("start-notify", Value.b true), ("notify-start", Value.b false)] =
      some "false" :=
  ⟨by decide, hipchat_c2 _ root0 (by decide), by decide⟩

/-- The six notify-* option keys with the property field each feeds
(source lines 103-120). -/
def notifyPairs : List (String × String) :=
  [("notify-success", "notifySuccess"),
   ("notify-aborted", "notifyAborted"),
   ("notify-not-built", "notifyNotBuilt"),
   ("notify-unstable", "notifyUnstable"),
   ("notify-failure", "notifyFailure"),
   ("notify-back-to-normal", "notifyBackToNormal")]

/-- C3: for every enabled options mapping and each of the six notify-*
keys, a present boolean value is written to the matching property field as
lower-case true or false text, and an absent key leaves the field out. -/
theorem hipchat_c3 (o : OptionsMap) (doc : Element) (p : String × String)
    (hp : p ∈ notifyPairs) (he : EnabledCall o) :
    gen_xml (some o) doc =
      addBlock (addBlock doc "properties" (pdefhipOf o)) "publishers" hippub ∧
    (∀ b : Bool, lookup o p.1 = some (.b b) →
      fieldText (pdefhipOf o) p.2 =
        some (.s (if b then "true" else "false"))) ∧
    (lookup o p.1 = none → fieldText (pdefhipOf o) p.2 = none) := by
  have key : fieldText (pdefhipOf o) p.2 =
      (lookup o p.1).map (fun v => Value.s (strLower (pyStr v))) := by
    simp only [notifyPairs, List.mem_cons, List.not_mem_nil, or_false] at hp
    rcases hp with rfl | rfl | rfl | rfl | rfl | rfl
    · exact fieldText_notifySuccess o
    · exact fieldText_notifyAborted o
    · exact fieldText_notifyNotBuilt o
    · exact fieldText_notifyUnstable o
    · exact fieldText_notifyFailure o
    · exact fieldText_notifyBackToNormal o
  refine ⟨gen_xml_enabled_eq o doc he, ?_, ?_⟩
  · intro b hb
    rw [key, hb]
    cases b <;> decide
  · intro hb
    rw [key, hb]
    rfl

/-- C3 witness: notify-success true yields notifySuccess equal to the
string true; an absent notify-aborted yields no notifyAborted field. -/
theorem hipchat_c3_witness :
    ("notify-success", "notifySuccess") ∈ notifyPairs ∧
    ("notify-aborted", "notifyAborted") ∈ notifyPairs ∧
    EnabledCall [("notify-success", Value.b true)] ∧
    fieldText (pdefhipOf [("notify-success", Value.b true)]) "notifySuccess" =
      some (Value.s "true") ∧
    fieldText (pdefhipOf [("notify-success", Value.b true)]) "notifyAborted" =
      none :=
  ⟨by decide, by decide, by decide,
   (hipchat_c3 [("notify-success", Value.b true)] root0
      ("notify-success", "notifySuccess") (by decide) (by decide)).2.1
      true (by decide),
   (hipchat_c3 [("notify-success", Value.b true)] root0
      ("notify-aborted", "notifyAborted") (by decide) (by decide)).2.2
      (by decide)⟩

/-- C4: for every enabled options mapping the room field of the property
block is the given room value, the empty string when absent; the room
field of the publisher block is the empty string unconditionally. -/
theorem hipchat_c4 (o : OptionsMap) (doc : Element) (he : EnabledCall o) :
    gen_xml (some o) doc =
      addBlock (addBlock doc "properties" (pdefhipOf o)) "publishers" hippub ∧
    (∀ v, lookup o "room" = some v → fieldText (pdefhipOf o) "room" = some v) ∧
    (lookup o "room" = none → fieldText (pdefhipOf o) "room" = some (.s "")) ∧
    fieldText hippub "room" = some (.s "") := by
  refine ⟨gen_xml_enabled_eq o doc he, ?_, ?_, rfl⟩
  · intro v hv
    rw [fieldText_room, getD, hv]
    rfl
  · intro hv
    rw [fieldText_room, getD, hv]
    rfl

/-- C4 witness: room dev passes through to the property block while the
publisher room stays empty. -/
theorem hipchat_c4_witness :
    EnabledCall [("room", Value.s "dev")] ∧
    fieldText (pdefhipOf [("room", Value.s "dev")]) "room" =
      some (Value.s "dev") ∧
    fieldText hippub "room" = some (Value.s "") :=
  ⟨by decide,
   (hipchat_c4 [("room", Value.s "dev")] root0 (by decide)).2.1
     (Value.s "dev") (by decide),
   (hipchat_c4 [("room", Value.s "dev")] root0 (by decide)).2.2.2⟩

/-- C5 (amended): with start-notify bound to the string 0 and notify-start
absent, the source emits startNotification with text 0 — not false — while
with both start keys absent no startNotification field is emitted at all;
the two cases therefore produce different outcomes, and the emit-false
bucket holds a present-but-empty string value instead. -/
theorem hipchat_c5 (o : OptionsMap) (doc : Element) (he : EnabledCall o) :
    gen_xml (some o) doc =
      addBlock (addBlock doc "properties" (pdefhipOf o)) "publishers" hippub ∧
    (lookup o "start-notify" = some (.s "0") → lookup o "notify-start" = none →
      fieldText (pdefhipOf o) "startNotification" = some (.s "0")) ∧
    (lookup o "start-notify" = none → lookup o "notify-start" = none →
      fieldText (pdefhipOf o) "startNotification" = none) ∧
    (lookup o "start-notify" = some (.s "") → lookup o "notify-start" = none →
      fieldText (pdefhipOf o) "startNotification" = some (.s "false")) := by
  refine ⟨gen_xml_enabled_eq o doc he, ?_, ?_, ?_⟩
  · intro h1 h2
    rw [fieldText_startNotification, startFields_text]
    simp [h1, h2, getD, pyOr, pyStr_s]
    decide
  · intro h1 h2
    rw [fieldText_startNotification, startFields_text]
    simp [h1, h2]
  · intro h1 h2
    rw [fieldText_startNotification, startFields_text]
    simp [h1, h2, getD, pyOr, pyStr_s, strLower_empty]

/-- C5 counterexample to the claim as stated: with start-notify bound to 0
the emitted startNotification text is 0, not false, and with start-notify
absent no field is emitted, so neither enabled case lands in the
emit-false bucket and the two outcomes differ. -/
theorem hipchat_c5_counterexample :
    EnabledCall [("start-notify", Value.s "0")] ∧
    EnabledCall [("enabled", Value.b true)] ∧
    fieldText (pdefhipOf [("start-notify", Value.s "0")]) "startNotification" =
      some (Value.s "0") ∧
    fieldText (pdefhipOf [("enabled", Value.b true)]) "startNotification" =
      none ∧
    some (Value.s "0") ≠ some (Value.s "false") ∧
    (some (Value.s "0") : Option Value) ≠ none := by
  decide

/-- C5 witness: the amended behaviours at concrete inputs. -/
theorem hipchat_c5_witness :
    EnabledCall [("start-notify", Value.s "0")] ∧
    fieldText (pdefhipOf [("start-notify", Value.s "0")]) "startNotification" =
      some (Value.s "0") ∧
    fieldText (pdefhipOf [("enabled", Value.b true)]) "startNotification" =
      none ∧
    fieldText (pdefhipOf [("start-notify", Value.s "")]) "startNotification" =
      some (Value.s "false") :=
  ⟨by decide,
   (hipchat_c5 [("start-notify", Value.s "0")] root0 (by decide)).2.1
     (by decide) (by decide),
   (hipchat_c5 [("enabled", Value.b true)] root0 (by decide)).2.2.1
     (by decide) (by decide),
   (hipchat_c5 [("start-notify", Value.s "")] root0 (by decide)).2.2.2
     (by decide) (by decide)⟩

/-- C6: an enabled call on a document holding at most one properties and at
most one publishers child leaves exactly one of each — existing sections
are reused, fresh ones are created only when absent — and a repeated call
still leaves exactly one of each. -/
theorem hipchat_c6 (o : OptionsMap) (doc : Element) (he : EnabledCall o)
    (hp : countTag doc.children "properties" ≤ 1)
    (hq : countTag doc.children "publishers" ≤ 1) :
    countTag (gen_xml (some o) doc).children "properties" = 1 ∧
    countTag (gen_xml (some o) doc).children "publishers" = 1 ∧
    countTag (gen_xml (some o) (gen_xml (some o) doc)).children "properties" = 1 ∧
    countTag (gen_xml (some o) (gen_xml (some o) doc)).children "publishers" = 1 := by
  have e1 : countTag (gen_xml (some o) doc).children "properties" = 1 := by
    rw [countTag_gen_xml_properties o doc he]
    split <;> omega
  have e2 : countTag (gen_xml (some o) doc).children "publishers" = 1 := by
    rw [countTag_gen_xml_publishers o doc he]
    split <;> omega
  refine ⟨e1, e2, ?_, ?_⟩
  · rw [countTag_gen_xml_properties o _ he, e1]
    simp
  · rw [countTag_gen_xml_publishers o _ he, e2]
    simp

/-- C6 witness: a second enabled call on a bare root still shows exactly
one properties and one publishers section. -/
theorem hipchat_c6_witness :
    EnabledCall [("room", Value.s "x")] ∧
    countTag root0.children "properties" ≤ 1 ∧
    countTag root0.children "publishers" ≤ 1 ∧
    countTag (gen_xml (some [("room", Value.s "x")])
      (gen_xml (some [("room", Value.s "x")]) root0)).children "properties" = 1 ∧
    countTag (gen_xml (some [("room", Value.s "x")])
      (gen_xml (some [("room", Value.s "x")]) root0)).children "publishers" = 1 :=
  ⟨by decide, by decide, by decide,
   (hipchat_c6 [("room", Value.s "x")] root0 (by decide) (by decide)
     (by decide)).2.2.1,
   (hipchat_c6 [("room", Value.s "x")] root0 (by decide) (by decide)
     (by decide)).2.2.2⟩

/-- C7 (amended): the source performs no type validation; for an enabled
mapping sending notify-success to a string, the call succeeds and the
string is silently lower-cased and encoded into the notifySuccess field of
the emitted property block, rather than any validation error being
raised. -/
theorem hipchat_c7 (o : OptionsMap) (doc : Element) (str : String)
    (he : EnabledCall o) (hs : lookup o "notify-success" = some (.s str)) :
    gen_xml (some o) doc =
      addBlock (addBlock doc "properties" (pdefhipOf o)) "publishers" hippub ∧
    fieldText (pdefhipOf o) "notifySuccess" = some (.s (strLower str)) := by
  refine ⟨gen_xml_enabled_eq o doc he, ?_⟩
  rw [fieldText_notifySuccess, hs]
  rfl

/-- C7 counterexample to the claim as stated: a malformed (non-boolean)
notify-success value banana raises nothing — the call completes and the
malformed value is encoded verbatim in the XML output. -/
theorem hipchat_c7_counterexample :
    EnabledCall [("notify-success", Value.s "banana")] ∧
    fieldText (pdefhipOf [("notify-success", Value.s "banana")])
      "notifySuccess" = some (Value.s "banana") ∧
    gen_xml (some [("notify-success", Value.s "banana")]) root0 =
      addBlock (addBlock root0 "properties"
        (pdefhipOf [("notify-success", Value.s "banana")])) "publishers" hippub :=
  ⟨by decide, by decide, rfl⟩

/-- C7 witness: the string TRUE is silently lowered to true and encoded. -/
theorem hipchat_c7_witness :
    EnabledCall [("notify-success", Value.s "TRUE")] ∧
    lookup [("notify-success", Value.s "TRUE")] "notify-success" =
      some (Value.s "TRUE") ∧
    fieldText (pdefhipOf [("notify-success", Value.s "TRUE")]) "notifySuccess" =
      some (Value.s (strLower "TRUE")) :=
  ⟨by decide, by decide,
   (hipchat_c7 [("notify-success", Value.s "TRUE")] root0 "TRUE"
     (by decide) (by decide)).2⟩

/-- C8: the call is total and atomic in its observable effect — it either
returns the document unchanged or attaches fully built blocks: the
property block always carries its room field with every field a filled
leaf, and so does the publisher block; no partially filled block can
appear. -/
theorem hipchat_c8 (hipchat? : Option OptionsMap) (doc : Element) :
    gen_xml hipchat? doc = doc ∨
    ∃ o, hipchat? = some o ∧
      gen_xml hipchat? doc =
        addBlock (addBlock doc "properties" (pdefhipOf o)) "publishers" hippub ∧
      CompleteBlock (pdefhipOf o) ∧ CompleteBlock hippub := by
  cases hipchat? with
  | none => exact Or.inl rfl
  | some o =>
      by_cases he : EnabledCall o
      · exact Or.inr ⟨o, rfl, gen_xml_enabled_eq o doc he,
          completeBlock_pdefhip o, completeBlock_hippub⟩
      · exact Or.inl (gen_xml_disabled o doc he)

/-- C9: an absent options mapping and an empty options mapping both leave
the document untouched even though the key enabled is absent in the empty
mapping; the enabled-by-default rule fires only for non-empty mappings,
where an absent enabled key leads to the blocks being attached. -/
theorem hipchat_c9 (doc : Element) :
    gen_xml none doc = doc ∧
    lookup ([] : OptionsMap) "enabled" = none ∧
    gen_xml (some ([] : OptionsMap)) doc = doc ∧
    (∀ o : OptionsMap, o ≠ [] → lookup o "enabled" = none →
      gen_xml (some o) doc =
        addBlock (addBlock doc "properties" (pdefhipOf o)) "publishers" hippub) := by
  refine ⟨rfl, rfl, rfl, ?_⟩
  intro o hne hen
  apply gen_xml_enabled_eq
  constructor
  · cases o with
    | nil => exact absurd rfl hne
    | cons a l => rfl
  · simp [getD, hen, pyTruthy]

/-- C9 witness: a non-empty mapping without the enabled key attaches the
blocks to a bare root. -/
theorem hipchat_c9_witness :
    ([("room", Value.s "z")] : OptionsMap) ≠ [] ∧
    lookup [("room", Value.s "z")] "enabled" = none ∧
    gen_xml (some [("room", Value.s "z")]) root0 =
      addBlock (addBlock root0 "properties"
        (pdefhipOf [("room", Value.s "z")])) "publishers" hippub :=
  ⟨by decide, by decide,
   (hipchat_c9 root0).2.2.2 [("room", Value.s "z")] (by decide) (by decide)⟩

/-- C10: the call is append-only — the output document extends the input
document: same root tag and text, every pre-existing child still present
in place with its own subtree only ever extended, and new children only
appended. -/
theorem hipchat_c10 (hipchat? : Option OptionsMap) (doc : Element) :
    Extends doc (gen_xml hipchat? doc) := by
  cases hipchat? with
  | none => exact extends_refl doc
  | some o =>
      by_cases he : EnabledCall o
      · rw [gen_xml_enabled_eq o doc he]
        exact extends_trans _ _ _
          (extends_addBlock doc "properties" (pdefhipOf o))
          (extends_addBlock _ "publishers" hippub)
      · rw [gen_xml_disabled o doc he]
        exact extends_refl doc

end HipchatNotif
